import Mathlib

/-!
Shallow embedding of the raw-viewer cache/worker subsystem.

The embedding covers, translated from the repository's source:
* `rating.py` — XMP sidecar rating store (`get_xmp_path`, `read_rating`,
  `write_rating`), with the regular expressions of the source modelled as
  explicit character-list matchers;
* `thumbnail_cache.py` — the persistent thumbnail cache with mtime
  validation (`ThumbnailCache.get` / `set`) together with the consumer logic
  of `ImageViewer._preload_thumb`;
* `viewer.py` — the coordinator state (active list, preview memory cache,
  in-flight sets, ratings dictionary) and the operations `_load_current`,
  `_preload_nearby`, `_trim_cache`, `_navigate`, `_apply_filter`,
  `_load_all_ratings`, `_preload_one` / `_on_preloaded`, and the progressive
  background sweep `_preload_all_thumbnails` / `_background_preload_batch`.

Worker jobs are modelled sequentially: submitting a job marks the index
in-flight, and the job's completion (success or decode failure) is applied
as an explicit state transition, exactly following the callbacks of the
source.  Images are modelled as tags carrying the decoded source path;
decoders are opaque functions `String → Option Img` that may fail.
File systems are functions from paths to optional text contents, and the
modification-time bookkeeping of the thumbnail cache stores mtime values
directly (Python serialises the float via `str` and parses it back with
`float`, which round-trips exactly).
-/

namespace RawViewer

/-- Paths are plain strings in the model. -/
abbrev FsPath := String

/-- A file system: maps a path to the text content of the file there,
`none` when the file does not exist (or cannot be read). -/
abbrev Fs := FsPath → Option String

/-! ### rating.py: `get_xmp_path` -/

/-- Scan a reversed character list for the suffix dot of the final path
component: returns the reversed remainder before the last `.` of the last
component, or `none` when that component has no suffix (no dot, or only a
leading dot, Python `Path.with_suffix` style). -/
def chopExtRev : List Char → Option (List Char)
  | [] => none
  | c :: rest =>
    if c = '/' then none
    else if c = '.' then
      match rest with
      | [] => none
      | d :: _ => if d = '/' then none else some rest
    else chopExtRev rest

/-- Model of `get_xmp_path`: `raw_path.with_suffix('.xmp')` — replace the
extension of the final component by `.xmp` (append it when there is none). -/
def xmpPath (raw_path : String) : String :=
  let cs := raw_path.toList
  let base :=
    match chopExtRev cs.reverse with
    | some r => r.reverse
    | none => cs
  String.mk (base ++ ".xmp".toList)

/-! ### rating.py: `read_rating` and the regex `xmp:Rating=["\'](\d)["\']` -/

/-- The character class `["\']` of the rating regexes. -/
def isQuoteChar (c : Char) : Bool := c == '"' || c == '\''

/-- The class `\d` of the rating regexes (ASCII digit). -/
def isDigitChar (c : Char) : Bool := 48 ≤ c.toNat && c.toNat ≤ 57

/-- Numeric value of a digit character. -/
def digitVal (c : Char) : Nat := c.toNat - 48

/-- The literal part `xmp:Rating=` shared by all the rating regexes. -/
def ratingLit : List Char := "xmp:Rating=".toList

/-- Drop `lit` from the front of `cs` when it is literally there. -/
def dropLit : List Char → List Char → Option (List Char)
  | [], cs => some cs
  | _ :: _, [] => none
  | l :: ls, c :: cs => if c = l then dropLit ls cs else none

/-- Try the read regex `xmp:Rating=["\'](\d)["\']` anchored at the head of
`cs`; on success return the captured digit's value. -/
def matchReadAt (cs : List Char) : Option Nat :=
  match dropLit ratingLit cs with
  | none => none
  | some rest =>
    match rest with
    | q1 :: d :: q2 :: _ =>
      if isQuoteChar q1 && isDigitChar d && isQuoteChar q2 then some (digitVal d)
      else none
    | _ => none

/-- `re.search` for the read regex: first match anywhere in the text. -/
def findReadMatch : List Char → Option Nat
  | [] => none
  | c :: cs =>
    match matchReadAt (c :: cs) with
    | some d => some d
    | none => findReadMatch cs

/-- Model of `read_rating`: `None` when the sidecar is absent, otherwise the
digit captured by the first match of `xmp:Rating=["\'](\d)["\']`. -/
def read_rating (fs : Fs) (raw_path : String) : Option Nat :=
  match fs (xmpPath raw_path) with
  | none => none
  | some content => findReadMatch content.toList

/-! ### rating.py: `write_rating` -/

/-- The clamp `max(0, min(5, rating))` of `write_rating`. -/
def clampRating (rating : Int) : Int := max 0 (min 5 rating)

/-- The `XMP_TEMPLATE` of the source with the rating substituted. -/
def XMP_TEMPLATE (rating : Nat) : String :=
  "<?xml version=\"1.0\" encoding=\"UTF-8\"?>\n<x:xmpmeta xmlns:x=\"adobe:ns:meta/\">\n  <rdf:RDF xmlns:rdf=\"http://www.w3.org/1999/02/22-rdf-syntax-ns#\">\n    <rdf:Description rdf:about=\"\"\n      xmlns:xmp=\"http://ns.adobe.com/xap/1.0/\"\n      xmp:Rating=\"" ++ toString rating ++ "\"/>\n  </rdf:RDF>\n</x:xmpmeta>"

/-- Consume an optional quote (`["\']?`, greedy): returns the consumed
group and the remainder. -/
def optQuote (cs : List Char) : List Char × List Char :=
  match cs with
  | c :: rest => if isQuoteChar c then ([c], rest) else ([], cs)
  | [] => ([], [])

/-- Try the update regex `(xmp:Rating=["\']?)\d(["\']?)` anchored at the
head: on success return the two captured groups (opening part with the
literal, trailing optional quote) and the remainder after the match. -/
def matchUpdAt (cs : List Char) : Option (List Char × List Char × List Char) :=
  match dropLit ratingLit cs with
  | none => none
  | some rest0 =>
    let p1 := optQuote rest0
    match p1.2 with
    | d :: rest1 =>
      if isDigitChar d then
        let p2 := optQuote rest1
        some (ratingLit ++ p1.1, p2.1, p2.2)
      else none
    | [] => none

theorem dropLit_length (ls : List Char) : ∀ cs rest : List Char,
    dropLit ls cs = some rest → rest.length + ls.length = cs.length := by
  induction ls with
  | nil =>
    intro cs rest h
    simp [dropLit] at h
    simp [h]
  | cons l ls ih =>
    intro cs rest h
    cases cs with
    | nil => simp [dropLit] at h
    | cons c cs =>
      simp only [dropLit] at h
      by_cases hc : c = l
      · simp [hc] at h
        have := ih cs rest h
        simp only [List.length_cons]
        omega
      · simp [hc] at h

theorem optQuote_snd_le (cs : List Char) : (optQuote cs).2.length ≤ cs.length := by
  cases cs with
  | nil => simp [optQuote]
  | cons c rest =>
    simp only [optQuote]
    by_cases h : isQuoteChar c = true <;> simp [h, List.length_cons] <;> omega

theorem matchUpdAt_rest_lt (cs : List Char) (g1 g2 rest : List Char)
    (h : matchUpdAt cs = some (g1, g2, rest)) : rest.length < cs.length := by
  unfold matchUpdAt at h
  cases hd : dropLit ratingLit cs with
  | none => rw [hd] at h; exact absurd h (by simp)
  | some rest0 =>
    rw [hd] at h
    dsimp only at h
    have hlen := dropLit_length ratingLit cs rest0 hd
    have h1 := optQuote_snd_le rest0
    cases hp : (optQuote rest0).2 with
    | nil => rw [hp] at h; exact absurd h (by simp)
    | cons d rest1 =>
      rw [hp] at h
      by_cases hdig : isDigitChar d = true
      · simp only [hdig, if_true] at h
        have h2 := optQuote_snd_le rest1
        have : rest = (optQuote rest1).2 := by
          have := congrArg (fun t => t.2.2) (Option.some.inj h)
          simpa using this.symm
        subst this
        have : rest1.length < rest0.length := by
          have : (d :: rest1).length ≤ rest0.length := hp ▸ h1
          simp [List.length_cons] at this
          omega
        have hr : ratingLit.length = 11 := by decide
        omega
      · simp [hdig] at h

/-- `re.sub` for the update regex: replace the digit of every
(non-overlapping, left-to-right) match by `r`, keeping both groups. -/
def substAll (r : Nat) : List Char → List Char
  | [] => []
  | c :: cs =>
    match h : matchUpdAt (c :: cs) with
    | some pr => pr.1 ++ (toString r).toList ++ pr.2.1 ++ substAll r pr.2.2
    | none => c :: substAll r cs
termination_by l => l.length
decreasing_by
  · exact matchUpdAt_rest_lt _ _ _ _ h
  · simp

/-- `re.search` for the check regex `xmp:Rating=["\']?\d["\']?` of
`write_rating` (same shape as the update regex, no groups used). -/
def hasUpdMatch : List Char → Bool
  | [] => false
  | c :: cs => (matchUpdAt (c :: cs)).isSome || hasUpdMatch cs

/-- The literal `<rdf:Description` opening the description-insert regex. -/
def descOpenLit : List Char := "<rdf:Description".toList

/-- The literal of the membership test `'rdf:Description' in content`. -/
def descNameLit : List Char := "rdf:Description".toList

/-- Python substring containment (`lit in content`). -/
def containsLit (lit : List Char) : List Char → Bool
  | [] => lit.isEmpty
  | c :: cs => (dropLit lit (c :: cs)).isSome || containsLit lit cs

/-- The replacement text `\n      xmp:Rating="r"` appended to the first
`<rdf:Description[^>]*` match. -/
def ratingAttrText (r : Nat) : List Char :=
  ("\n      xmp:Rating=\"" ++ toString r ++ "\"").toList

/-- `re.sub(r'(<rdf:Description[^>]*)', ..., count=1)`: at the first
occurrence of `<rdf:Description`, extend the greedy `[^>]*` group and append
the rating attribute after it. -/
def insertAfterDesc (r : Nat) : List Char → List Char
  | [] => []
  | c :: cs =>
    match dropLit descOpenLit (c :: cs) with
    | some rest =>
      descOpenLit ++ rest.takeWhile (fun x => x != '>') ++ ratingAttrText r
        ++ rest.dropWhile (fun x => x != '>')
    | none => c :: insertAfterDesc r cs

/-- Point update of a file system. -/
def setFile (fs : Fs) (p : FsPath) (content : String) : Fs :=
  fun q => if q = p then some content else fs q

/-- Model of `write_rating`: clamp the rating to `[0,5]`; update the digit
in an existing sidecar when the update regex matches, else add the attribute
to an existing `rdf:Description`, else (malformed or absent sidecar) write
the fresh template.  Returns the new file system and the success flag
(file-system writes succeed in the model; the source swallows `OSError`
and returns `False` there). -/
def write_rating (fs : Fs) (raw_path : String) (rating : Int) : Fs × Bool :=
  let xp := xmpPath raw_path
  let r := (clampRating rating).toNat
  match fs xp with
  | some content =>
    let cs := content.toList
    let newContent :=
      if hasUpdMatch cs then String.mk (substAll r cs)
      else if containsLit descNameLit cs then String.mk (insertAfterDesc r cs)
      else XMP_TEMPLATE r
    (setFile fs xp newContent, true)
  | none => (setFile fs xp (XMP_TEMPLATE r), true)

/-! ### Viewer-side lazy rating dictionary (viewer.py lines 868-872) -/

/-- `rating if rating is not None else 0` applied to `read_rating`. -/
def ratingOrZero (fs : Fs) (f : String) : Nat :=
  match read_rating fs f with
  | some v => v
  | none => 0

/-- The in-memory ratings dictionary `self.ratings` (original index to
rating). -/
abbrev RatingsDict := Nat → Option Nat

/-- The lazy-load idiom of `_load_current` (and `_preload_thumb` /
`_load_all_ratings`): when the original index is not yet in the dictionary,
read the sidecar and cache the value (0 when absent); return the updated
dictionary and the rating used. -/
def loadRatingFor (ratings : RatingsDict) (fs : Fs) (f : String) (i : Nat) :
    RatingsDict × Nat :=
  match ratings i with
  | some r => (ratings, r)
  | none =>
    let r := ratingOrZero fs f
    (fun j => if j = i then some r else ratings j, r)

/-! ### Theorems about the rating store (claims C8, C9, C10) -/

theorem clampRating_nonneg (r : Int) : 0 ≤ clampRating r := le_max_left 0 _

theorem clampRating_toNat_le (r : Int) : (clampRating r).toNat ≤ 5 := by
  unfold clampRating
  omega

theorem template_read (r : Nat) (h : r ≤ 5) :
    findReadMatch (XMP_TEMPLATE r).toList = some r := by
  interval_cases r <;> decide

/-- Claim C9: for every integer `r` (also outside `[0,5]`) and every path with
no sidecar yet, a successful `write_rating(path, r)` followed by
`read_rating(path)` yields `max(0, min(5, r))`: the write clamps into `[0,5]`
and the write/read pair round-trips to the clamped value. -/
theorem write_then_read_clamped (fs : Fs) (p : String) (r : Int)
    (habs : fs (xmpPath p) = none) (hok : (write_rating fs p r).2 = true) :
    read_rating (write_rating fs p r).1 p = some (clampRating r).toNat := by
  clear hok
  unfold write_rating
  dsimp only
  rw [habs]
  dsimp only
  unfold read_rating setFile
  simp only [if_pos rfl]
  exact template_read _ (clampRating_toNat_le r)

theorem write_then_read_clamped_witness :
    ((fun _ : FsPath => (none : Option String)) (xmpPath "a.raw") = none) ∧
    (write_rating (fun _ => none) "a.raw" 9).2 = true ∧
    read_rating (write_rating (fun _ => none) "a.raw" 9).1 "a.raw" =
      some (clampRating 9).toNat :=
  ⟨rfl, rfl, write_then_read_clamped (fun _ => none) "a.raw" 9 rfl rfl⟩

theorem matchReadAt_le (cs : List Char) (d : Nat) (h : matchReadAt cs = some d) :
    d ≤ 9 := by
  unfold matchReadAt at h
  cases hd : dropLit ratingLit cs with
  | none => rw [hd] at h; simp at h
  | some rest =>
    rw [hd] at h
    dsimp only at h
    rcases rest with _ | ⟨q1, _ | ⟨dc, _ | ⟨q2, t⟩⟩⟩
    · simp at h
    · simp at h
    · simp at h
    · dsimp only at h
      by_cases hc : (isQuoteChar q1 && isDigitChar dc && isQuoteChar q2) = true
      · rw [if_pos hc] at h
        have hdig : isDigitChar dc = true := by
          simp only [Bool.and_eq_true] at hc
          exact hc.1.2
        simp only [isDigitChar, Bool.and_eq_true, decide_eq_true_eq] at hdig
        have : digitVal dc ≤ 9 := by unfold digitVal; omega
        cases h
        exact this
      · rw [if_neg hc] at h
        exact absurd h (by simp)

theorem findReadMatch_le (cs : List Char) (d : Nat) (h : findReadMatch cs = some d) :
    d ≤ 9 := by
  induction cs with
  | nil => simp [findReadMatch] at h
  | cons c cs ih =>
    unfold findReadMatch at h
    cases hm : matchReadAt (c :: cs) with
    | some e =>
      rw [hm] at h
      cases h
      exact matchReadAt_le _ _ hm
    | none =>
      rw [hm] at h
      exact ih h

/-- A store whose sidecar for `img.raw` carries the (out-of-range) digit 7. -/
def sevenFs : Fs := fun q => if q = "img.xmp" then some "<x xmp:Rating=\"7\"/>" else none

/-- A store whose sidecar for `img.raw` carries the two-digit rating 10. -/
def tenFs : Fs := fun q => if q = "img.xmp" then some "<x xmp:Rating=\"10\"/>" else none

/-- Claim C10: `read_rating` is total (never raises), and its result is
either `none` or a single digit in `[0,9]`; it can return a digit above 5
(here 7), and it returns `none` — not a truncated value — for a multi-digit
rating such as "10". -/
theorem read_rating_shape :
    (∀ (fs : Fs) (p : String), read_rating fs p = none ∨
      ∃ d, read_rating fs p = some d ∧ d ≤ 9) ∧
    read_rating sevenFs "img.raw" = some 7 ∧
    read_rating tenFs "img.raw" = none := by
  refine ⟨?_, by decide, by decide⟩
  intro fs p
  cases h : fs (xmpPath p) with
  | none =>
    left
    unfold read_rating
    rw [h]
  | some content =>
    have hr : read_rating fs p = findReadMatch content.toList := by
      unfold read_rating
      rw [h]
    cases hf : findReadMatch content.toList with
    | none =>
      left
      rw [hr, hf]
    | some d => exact Or.inr ⟨d, by rw [hr, hf], findReadMatch_le _ _ hf⟩

/-- Claim C8: a rating read performed before any write for the item (the
original index is absent from the in-memory dictionary) returns the value
persisted in the rating store when one exists, and 0 when `read_rating`
returns `None`. -/
theorem rating_read_before_write (ratings : RatingsDict) (fs : Fs) (f : String)
    (i : Nat) (hfresh : ratings i = none) :
    (∀ v, read_rating fs f = some v → (loadRatingFor ratings fs f i).2 = v) ∧
    (read_rating fs f = none → (loadRatingFor ratings fs f i).2 = 0) := by
  unfold loadRatingFor
  rw [hfresh]
  dsimp only
  constructor
  · intro v hv
    unfold ratingOrZero
    rw [hv]
  · intro hv
    unfold ratingOrZero
    rw [hv]

theorem rating_read_before_write_witness :
    ((fun _ : Nat => (none : Option Nat)) 0 = none) ∧
    (loadRatingFor (fun _ => none) sevenFs "img.raw" 0).2 = 7 :=
  ⟨rfl, (rating_read_before_write (fun _ => none) sevenFs "img.raw" 0 rfl).1 7 (by decide)⟩

/-! ### thumbnail_cache.py: `ThumbnailCache` with mtime validation

The cache key is the hash of `(path, size)`, so the records of one
`(path, size)` pair are independent of every other pair; the model is the
slice of the state belonging to one key: the `key.jpg` bytes file, the
`key.mtime` file, and the source file's current mtime (`none` when `stat`
fails).  mtime values are stored directly: Python serialises the float via
`str` and parses it back with `float`, which round-trips exactly. -/

/-- Modification times (an arbitrary value type with decidable equality). -/
abbrev Mtime := Nat

/-- The cache state for one `(path, size)` key. -/
structure CacheSt where
  cacheData : Option (List Nat)
  cacheMtime : Option Mtime
  srcMtime : Option Mtime

/-- Model of `ThumbnailCache.get`: miss when either record file is absent,
when the source cannot be stat-ed, or when the recorded mtime differs from
the source's current mtime; otherwise the cached bytes. -/
def tcGet (st : CacheSt) : Option (List Nat) :=
  match st.cacheData, st.cacheMtime with
  | some dataBytes, some m =>
    match st.srcMtime with
    | some cur => if m = cur then some dataBytes else none
    | none => none
  | _, _ => none

/-- Model of `ThumbnailCache.set`: record the bytes and the source's current
mtime; when `stat` fails the `OSError` is swallowed and nothing is written. -/
def tcSet (st : CacheSt) (dataBytes : List Nat) : CacheSt :=
  match st.srcMtime with
  | some cur => { st with cacheData := some dataBytes, cacheMtime := some cur }
  | none => st

/-- The generate-and-cache tail of `_preload_thumb` (viewer.py lines
751-758): one decoder invocation; the result is cached only when truthy
(non-`None` and non-empty).  The returned number counts decoder calls. -/
def thumbGenerate (st : CacheSt) (gen : Option (List Nat)) : CacheSt × Nat :=
  match gen with
  | some tb => if tb = [] then (st, 1) else (tcSet st tb, 1)
  | none => (st, 1)

/-- The cache-consulting body of `_preload_thumb` (viewer.py lines
743-757): `if cached_bytes:` — Python truthiness, so a hit with empty bytes
falls through to regeneration; a nonempty hit is then loaded via
`QPixmap.loadFromData` and used only `if not pixmap.isNull():` (lines
746-748), otherwise control also falls through to regeneration.  `loadOk`
tells which byte strings load as a non-null pixmap; `gen` is the decoder's
answer if it gets invoked; the returned number counts decoder calls. -/
def preloadThumbFetch (loadOk : List Nat → Bool) (st : CacheSt)
    (gen : Option (List Nat)) : CacheSt × Nat :=
  match tcGet st with
  | some cb =>
    if cb = [] then thumbGenerate st gen
    else if loadOk cb then (st, 0) else thumbGenerate st gen
  | none => thumbGenerate st gen

/-! ### Theorems about the thumbnail cache (claim C4) -/

theorem thumbGenerate_decodes (st : CacheSt) (gen : Option (List Nat)) :
    (thumbGenerate st gen).2 = 1 := by
  unfold thumbGenerate
  cases gen with
  | none => rfl
  | some tb =>
    by_cases h : tb = [] <;> simp [h]

/-- Claim C4, counterexample: with the empty byte string, `set` succeeds and
`get` (unchanged mtime) returns exactly those bytes, yet the thumbnail
consumer treats the empty result as missing and invokes the decoder again —
a second decode despite a valid cache record (even with a loader that
accepts every byte string, so the failure is the truthiness test alone). -/
theorem thumb_empty_bytes_redecode :
    tcGet (tcSet ⟨none, none, some 5⟩ []) = some [] ∧
    (preloadThumbFetch (fun _ => true) (tcSet ⟨none, none, some 5⟩ []) (some [7])).2 = 1 := by
  decide

/-- Claim C4 (amended): after `set(path, size, bytes)` succeeds, `get` with
unchanged source mtime returns exactly those bytes; on that fresh hit the
thumbnail consumer performs no second decode exactly when the bytes are
nonempty AND load as a non-null pixmap (`QPixmap.loadFromData` succeeds),
and otherwise performs exactly one regeneration; when the source mtime
differs from the recorded mtime, `get` misses and the consumer performs
exactly one regeneration (one decoder call). -/
theorem thumb_cache_roundtrip (loadOk : List Nat → Bool) (st : CacheSt)
    (b : List Nat) (m m2 : Mtime) (g : Option (List Nat))
    (hm : st.srcMtime = some m) (hne : m2 ≠ m) :
    tcGet (tcSet st b) = some b ∧
    (preloadThumbFetch loadOk (tcSet st b) g).2 =
      (if b ≠ [] ∧ loadOk b = true then 0 else 1) ∧
    tcGet { tcSet st b with srcMtime := some m2 } = none ∧
    (preloadThumbFetch loadOk { tcSet st b with srcMtime := some m2 } g).2 = 1 := by
  have hset : tcSet st b = { st with cacheData := some b, cacheMtime := some m } := by
    unfold tcSet
    rw [hm]
  have hget : tcGet (tcSet st b) = some b := by
    rw [hset]
    unfold tcGet
    simp [hm]
  have hstale : tcGet { tcSet st b with srcMtime := some m2 } = none := by
    rw [hset]
    unfold tcGet
    simp [Ne.symm hne]
  refine ⟨hget, ?_, hstale, ?_⟩
  · unfold preloadThumbFetch
    rw [hget]
    by_cases hb : b = []
    · simp [hb, thumbGenerate_decodes]
    · by_cases hok : loadOk b = true
      · simp [hb, hok]
      · simp [hb, hok, thumbGenerate_decodes]
  · unfold preloadThumbFetch
    rw [hstale]
    exact thumbGenerate_decodes _ _

theorem thumb_cache_roundtrip_witness :
    ((⟨none, none, some 4⟩ : CacheSt).srcMtime = some 4) ∧ (7 : Mtime) ≠ 4 ∧
    (tcGet (tcSet ⟨none, none, some 4⟩ [9, 8]) = some [9, 8] ∧
     (preloadThumbFetch (fun cb => !cb.isEmpty) (tcSet ⟨none, none, some 4⟩ [9, 8]) none).2 =
       (if ([9, 8] : List Nat) ≠ [] ∧ (fun cb => !cb.isEmpty) ([9, 8] : List Nat) = true then 0 else 1) ∧
     tcGet { tcSet (⟨none, none, some 4⟩ : CacheSt) [9, 8] with srcMtime := some 7 } = none ∧
     (preloadThumbFetch (fun cb => !cb.isEmpty) { tcSet (⟨none, none, some 4⟩ : CacheSt) [9, 8] with srcMtime := some 7 } none).2 = 1) :=
  ⟨rfl, by decide,
    thumb_cache_roundtrip (fun cb => !cb.isEmpty) ⟨none, none, some 4⟩ [9, 8] 4 7 none rfl (by decide)⟩

/-! ### viewer.py: coordinator state and operations

Decoded images are modelled as tags carrying the source path they were
decoded from (`extract_preview` of one file always yields the same image in
the model); a decoder is an opaque `String → Option Img` that may fail.
The preview memory cache `self.cache` is an association list with unique
keys (a Python dict); the in-flight sets and the filmstrip thumbnail key
set are finite sets of indices. -/

/-- A decoded preview image, tagged by its source. -/
abbrev Img := String

/-- A decoder (`extract_preview`): may fail on any file. -/
abbrev Dec := String → Option Img

/-- The fields of `ImageViewer` the cache/worker subsystem touches. -/
structure ViewerSt where
  all_files : List String
  files : List String
  index : Nat
  cache : List (Nat × Img)
  ratings : RatingsDict
  loading : Finset Nat
  thumb_loading : Finset Nat
  thumbnails : Finset Nat
  min_rating_filter : Nat

/-- `CACHE_SIZE` of `ImageViewer` (the spec's `WINDOW_SIZE`). -/
def CACHE_SIZE : Nat := 7

/-- Python `dict.get` on the preview cache. -/
def dictGet (k : Nat) (d : List (Nat × Img)) : Option Img :=
  (d.find? (fun kv => kv.1 == k)).map Prod.snd

/-- Python `dict[k] = v` on the preview cache (replaces any entry at `k`). -/
def dictInsert (k : Nat) (v : Img) (d : List (Nat × Img)) : List (Nat × Img) :=
  (k, v) :: d.filter (fun kv => kv.1 != k)

/-- `_load_sync`: decode `files[idx]` when the index is in range. -/
def load_sync (dec : Dec) (s : ViewerSt) (idx : Nat) : Option Img :=
  match s.files[idx]? with
  | some f => dec f
  | none => none

/-- `_on_preloaded` (viewer.py lines 697-707): the completion callback of a
preview job that produced an image — cache it unless the index is already
cached, unconditionally discard the index from `loading`, and create the
filmstrip thumbnail when missing. -/
def on_preloaded (s : ViewerSt) (idx : Nat) (px : Img) : ViewerSt :=
  let s1 := if dictGet idx s.cache = none then { s with cache := dictInsert idx px s.cache } else s
  let s2 := { s1 with loading := s1.loading.erase idx }
  if idx ∈ s2.thumbnails then s2 else { s2 with thumbnails := insert idx s2.thumbnails }

/-- `_preload_one` (viewer.py lines 726-729): the preview worker job.  The
`loaded` signal is emitted only when the decode produced an image, so on a
decode failure no completion runs and `loading` is left untouched. -/
def preload_one (dec : Dec) (s : ViewerSt) (idx : Nat) : ViewerSt :=
  match load_sync dec s idx with
  | some px => on_preloaded s idx px
  | none => s

/-- One iteration of `_preload_nearby`'s loop: under the lock, when the
index is in range and neither cached nor in flight, mark it in flight and
submit the preview job (the job's completion is applied in place). -/
def preloadAt (dec : Dec) (s : ViewerSt) (idxZ : Int) : ViewerSt :=
  if 0 ≤ idxZ ∧ idxZ < (s.files.length : Int) then
    let idx := idxZ.toNat
    if dictGet idx s.cache = none ∧ idx ∉ s.loading then
      preload_one dec { s with loading := insert idx s.loading } idx
    else s
  else s

/-- `abs(k - index)` on indices. -/
def natDist (a b : Nat) : Nat := ((a : Int) - (b : Int)).natAbs

/-- `_trim_cache`: evict every cache entry farther than `CACHE_SIZE // 2`
from the current index. -/
def trim_cache (s : ViewerSt) : ViewerSt :=
  { s with cache := s.cache.filter (fun kv => decide (natDist kv.1 s.index ≤ CACHE_SIZE / 2)) }

/-- The offsets `[1, -1, 2, -2, 3, -3]` of `_preload_nearby`. -/
def preload_offsets : List Int := [1, -1, 2, -2, 3, -3]

/-- The submit loop of `_preload_nearby` over an offset list. -/
def nearbyFold (dec : Dec) (offs : List Int) (s : ViewerSt) : ViewerSt :=
  offs.foldl (fun st off => preloadAt dec st ((st.index : Int) + off)) s

/-- `_preload_nearby` (viewer.py lines 766-773): submit preview jobs for the
neighbours of the current index, then trim the memory cache. -/
def preload_nearby (dec : Dec) (s : ViewerSt) : ViewerSt :=
  trim_cache (nearbyFold dec preload_offsets s)

/-- `_load_current` (viewer.py lines 848-877): serve the current item from
the cache, else decode synchronously, cache and thumbnail it; then lazily
load the current item's rating keyed by its original index.  Returns the
new state and the image handed to `_display` (`none` when nothing was
displayed). -/
def load_current (fs : Fs) (dec : Dec) (s : ViewerSt) : ViewerSt × Option Img :=
  if s.files = [] then (s, none)
  else
    let step1 : ViewerSt × Option Img :=
      match dictGet s.index s.cache with
      | some px => (s, some px)
      | none =>
        match load_sync dec s s.index with
        | some px =>
          let sA := { s with cache := dictInsert s.index px s.cache }
          let sB := if s.index ∈ sA.thumbnails then sA
                    else { sA with thumbnails := insert s.index sA.thumbnails }
          (sB, some px)
        | none => (s, none)
    let s1 := step1.1
    let s2 :=
      match s1.files[s1.index]? with
      | some f =>
        let oi := s1.all_files.indexOf f
        match s1.ratings oi with
        | some _ => s1
        | none => { s1 with ratings := fun j => if j = oi then some (ratingOrZero fs f) else s1.ratings j }
      | none => s1
    (s2, step1.2)

/-- `_load_thumbnails_range` (viewer.py lines 784-792): for each in-range
index of the clamped interval that has neither a filmstrip thumbnail nor an
in-flight thumbnail job, mark it in flight (the submitted thumbnail jobs
complete asynchronously, outside this step). -/
def load_thumbnails_range (s : ViewerSt) (a b : Int) : ViewerSt :=
  ((List.range s.files.length).filter
      (fun (i : Nat) => decide (a ≤ (i : Int) ∧ (i : Int) ≤ b))).foldl
    (fun st idx =>
      if idx ∈ st.thumbnails ∨ idx ∈ st.thumb_loading then st
      else { st with thumb_loading := insert idx st.thumb_loading }) s

/-- `_preload_thumbnails`: thumbnails for the band around the current index. -/
def preload_thumbnails (s : ViewerSt) : ViewerSt :=
  load_thumbnails_range s ((s.index : Int) - 10) ((s.index : Int) + 10)

/-- `_navigate` (viewer.py lines 1349-1355): move the index by `delta` when
the target is in range, then reload, preload neighbours (which trims the
cache) and request nearby thumbnails; otherwise do nothing. -/
def navigate (fs : Fs) (dec : Dec) (s : ViewerSt) (delta : Int) : ViewerSt :=
  let new_index := (s.index : Int) + delta
  if 0 ≤ new_index ∧ new_index < (s.files.length : Int) then
    let s1 := { s with index := new_index.toNat }
    let s2 := (load_current fs dec s1).1
    let s3 := preload_nearby dec s2
    preload_thumbnails s3
  else s

/-- `_load_all_ratings` (viewer.py lines 950-955): resolve every missing
rating of the full original list from the rating store (0 when absent). -/
def load_all_ratings (fs : Fs) (s : ViewerSt) : ViewerSt :=
  { s with ratings := fun i =>
      match s.ratings i with
      | some r => some r
      | none =>
        match s.all_files[i]? with
        | some f => some (ratingOrZero fs f)
        | none => none }

/-- Python `self.ratings.get(i, 0)`. -/
def ratingsGet (s : ViewerSt) (i : Nat) : Nat := (s.ratings i).getD 0

/-- The remembered selection of `_apply_filter`:
`self.files[self.index] if self.files and 0 <= self.index < len(self.files)
else None`. -/
def currentFileOf (s : ViewerSt) : Option String :=
  if s.files ≠ [] ∧ s.index < s.files.length then s.files[s.index]? else none

/-- `_apply_filter` lines 966-979: set the filter level, recompute the
active list (full list for level 0, else the rating-filtered subsequence of
the original list after `_load_all_ratings`), and clear the filmstrip
thumbnail map and the thumbnail in-flight set.  The preview memory cache
and the preview in-flight set are NOT cleared here. -/
def filterClear (fs : Fs) (s : ViewerSt) (min_rating : Nat) : ViewerSt :=
  let sA := { s with min_rating_filter := min_rating }
  let sB :=
    if min_rating = 0 then { sA with files := sA.all_files }
    else
      let sR := load_all_ratings fs sA
      { sR with files := (sR.all_files.enum.filter
          (fun p => decide (min_rating ≤ ratingsGet sR p.1))).map Prod.snd }
  { sB with thumbnails := (∅ : Finset Nat), thumb_loading := (∅ : Finset Nat) }

/-- `_apply_filter` lines 981-986: keep the remembered selection when it is
still in the new list, else reset the index to 0. -/
def filterSelect (s sC : ViewerSt) : ViewerSt :=
  match currentFileOf s with
  | some f =>
    if f ∈ sC.files then { sC with index := sC.files.indexOf f }
    else { sC with index := 0 }
  | none => { sC with index := 0 }

/-- `_apply_filter` (viewer.py lines 957-994), assembled from the two
stages above: remember the current file, recompute and clear, then either
blank the view (empty result) or remap the selection, reload the current
item and preload its neighbours.  Returns the new state and the image
handed to `_display`.  The progressive-sweep restart is modelled by the
`Sweep` machine separately. -/
def apply_filter (fs : Fs) (dec : Dec) (s : ViewerSt) (min_rating : Nat) :
    ViewerSt × Option Img :=
  let sC := filterClear fs s min_rating
  if sC.files = [] then (sC, none)
  else
    let sD := filterSelect s sC
    let step := load_current fs dec sD
    (preload_nearby dec step.1, step.2)

/-- The rating an item of the original list effectively has once resolved:
the in-memory value when present, else the persisted value, else 0. -/
def resolvedRating (fs : Fs) (s : ViewerSt) (i : Nat) : Nat :=
  match s.ratings i with
  | some r => r
  | none =>
    match s.all_files[i]? with
    | some f => ratingOrZero fs f
    | none => 0

/-! ### Theorems about the worker in-flight sets (claim C1) and stale
previews after a filter change (claim C2) -/

/-- A viewer state with two files and nothing cached or in flight. -/
def leakSt : ViewerSt :=
  { all_files := ["A.raw", "B.raw"], files := ["A.raw", "B.raw"], index := 0,
    cache := [], ratings := fun _ => none, loading := ∅, thumb_loading := ∅,
    thumbnails := ∅, min_rating_filter := 0 }

/-- Claim C1, evaluated at the failing input: submitting a preview job for
index 1 (`_preload_nearby`'s guarded submit marks it in flight) whose decode
fails (`extract_preview` returns `None`) finishes the job without emitting
the `loaded` signal, so `_on_preloaded` never runs and index 1 stays in the
preview pool's in-flight set `self.loading` forever.  The thumbnail pool's
job (`_preload_thumb`) discards its index in a `finally`; the preview job
(`_preload_one`) has no such cleanup. -/
theorem preview_failure_leaves_loading :
    (preloadAt (fun _ => none) leakSt 1).loading = {1} ∧
    1 ∈ (preloadAt (fun _ => none) leakSt 1).loading := by
  decide

/-- The state before the rating filter is applied: the user sits on item C
of [A, B, C, D] and `_preload_nearby` has filled the preview cache with the
decodes of all four items, keyed by old-list indices.  Ratings are already
in memory: A and B unrated, C and D rated 2. -/
def staleSt : ViewerSt :=
  { all_files := ["A.raw", "B.raw", "C.raw", "D.raw"],
    files := ["A.raw", "B.raw", "C.raw", "D.raw"], index := 2,
    cache := [(0, "A.raw"), (1, "B.raw"), (2, "C.raw"), (3, "D.raw")],
    ratings := fun i => if i = 2 ∨ i = 3 then some 2 else if i ≤ 1 then some 0 else none,
    loading := ∅, thumb_loading := ∅, thumbnails := ∅, min_rating_filter := 0 }

/-- Claim C2, evaluated at the failing input (decoder = the identity tag, so
the decode of position 0 of the new list ["C.raw", "D.raw"] is the image
tagged "C.raw"): `_apply_filter(2)` keeps the preview cache uncleared, the
preserved selection C lands at new index 0, and `_load_current` serves the
cache entry stored under old-list index 0 — the image of A — so the image
displayed for new-list index 0 is not a decode of the file at position 0 of
the new active list. -/
theorem filter_reuses_stale_preview :
    (apply_filter (fun _ => none) some staleSt 2).1.files = ["C.raw", "D.raw"] ∧
    (apply_filter (fun _ => none) some staleSt 2).1.index = 0 ∧
    (apply_filter (fun _ => none) some staleSt 2).2 = some "A.raw" ∧
    (some : Dec) "C.raw" = some "C.raw" ∧
    (apply_filter (fun _ => none) some staleSt 2).2 ≠ some "C.raw" := by
  decide

/-! ### Theorems about the preview memory cache window (claim C3) -/

/-- The key set of the preview cache dictionary. -/
def cacheKeys (d : List (Nat × Img)) : List Nat := d.map Prod.fst

/-- The invariant of claim C3: the cache is a dictionary (unique keys) and
every retained index is within `CACHE_SIZE // 2` of the current index. -/
def cacheWindowOK (s : ViewerSt) : Prop :=
  (cacheKeys s.cache).Nodup ∧
  ∀ k ∈ cacheKeys s.cache, natDist k s.index ≤ CACHE_SIZE / 2

theorem cacheKeys_filter (p : Nat → Bool) (d : List (Nat × Img)) :
    cacheKeys (d.filter (fun kv => p kv.1)) = (cacheKeys d).filter p := by
  induction d with
  | nil => rfl
  | cons kv d ih =>
    by_cases h : p kv.1 = true <;>
      simp [cacheKeys, List.filter_cons, h] at ih ⊢ <;> exact ih

theorem cacheKeys_dictInsert (k : Nat) (v : Img) (d : List (Nat × Img)) :
    cacheKeys (dictInsert k v d) = k :: (cacheKeys d).filter (fun x => x != k) := by
  unfold dictInsert
  have := cacheKeys_filter (fun x => x != k) d
  simp [cacheKeys] at this ⊢
  exact this

theorem nodup_dictInsert (k : Nat) (v : Img) (d : List (Nat × Img))
    (h : (cacheKeys d).Nodup) : (cacheKeys (dictInsert k v d)).Nodup := by
  rw [cacheKeys_dictInsert]
  refine List.nodup_cons.mpr ⟨?_, h.filter _⟩
  intro hmem
  have := (List.mem_filter.mp hmem).2
  simp at this

theorem on_preloaded_frame (s : ViewerSt) (idx : Nat) (px : Img) :
    (on_preloaded s idx px).files = s.files ∧
    (on_preloaded s idx px).all_files = s.all_files ∧
    (on_preloaded s idx px).index = s.index ∧
    (on_preloaded s idx px).ratings = s.ratings := by
  unfold on_preloaded
  by_cases h1 : dictGet idx s.cache = none <;>
    by_cases h2 : idx ∈ s.thumbnails <;> simp_all

theorem on_preloaded_cache (s : ViewerSt) (idx : Nat) (px : Img) :
    (on_preloaded s idx px).cache = dictInsert idx px s.cache ∨
    (on_preloaded s idx px).cache = s.cache := by
  unfold on_preloaded
  by_cases h1 : dictGet idx s.cache = none <;>
    by_cases h2 : idx ∈ s.thumbnails <;> simp_all

theorem preload_one_frame (dec : Dec) (s : ViewerSt) (idx : Nat) :
    (preload_one dec s idx).files = s.files ∧
    (preload_one dec s idx).all_files = s.all_files ∧
    (preload_one dec s idx).index = s.index ∧
    (preload_one dec s idx).ratings = s.ratings := by
  unfold preload_one
  cases load_sync dec s idx with
  | some px => exact on_preloaded_frame s idx px
  | none => exact ⟨rfl, rfl, rfl, rfl⟩

theorem preload_one_cache (dec : Dec) (s : ViewerSt) (idx : Nat) :
    (∃ v, (preload_one dec s idx).cache = dictInsert idx v s.cache) ∨
    (preload_one dec s idx).cache = s.cache := by
  unfold preload_one
  cases load_sync dec s idx with
  | some px =>
    cases on_preloaded_cache s idx px with
    | inl h => exact Or.inl ⟨px, h⟩
    | inr h => exact Or.inr h
  | none => exact Or.inr rfl

theorem preloadAt_frame (dec : Dec) (s : ViewerSt) (z : Int) :
    (preloadAt dec s z).files = s.files ∧
    (preloadAt dec s z).all_files = s.all_files ∧
    (preloadAt dec s z).index = s.index ∧
    (preloadAt dec s z).ratings = s.ratings := by
  unfold preloadAt
  dsimp only
  by_cases h1 : 0 ≤ z ∧ z < (s.files.length : Int)
  · rw [if_pos h1]
    by_cases h2 : dictGet z.toNat s.cache = none ∧ z.toNat ∉ s.loading
    · rw [if_pos h2]
      have := preload_one_frame dec { s with loading := insert z.toNat s.loading } z.toNat
      simpa using this
    · rw [if_neg h2]
      exact ⟨rfl, rfl, rfl, rfl⟩
  · rw [if_neg h1]
    exact ⟨rfl, rfl, rfl, rfl⟩

theorem preloadAt_cache (dec : Dec) (s : ViewerSt) (z : Int) :
    (∃ i v, (preloadAt dec s z).cache = dictInsert i v s.cache) ∨
    (preloadAt dec s z).cache = s.cache := by
  unfold preloadAt
  dsimp only
  by_cases h1 : 0 ≤ z ∧ z < (s.files.length : Int)
  · rw [if_pos h1]
    by_cases h2 : dictGet z.toNat s.cache = none ∧ z.toNat ∉ s.loading
    · rw [if_pos h2]
      cases preload_one_cache dec { s with loading := insert z.toNat s.loading } z.toNat with
      | inl h =>
        obtain ⟨v, hv⟩ := h
        exact Or.inl ⟨z.toNat, v, by simpa using hv⟩
      | inr h => exact Or.inr (by simpa using h)
    · rw [if_neg h2]
      exact Or.inr rfl
  · rw [if_neg h1]
    exact Or.inr rfl

theorem preloadAt_nodup (dec : Dec) (s : ViewerSt) (z : Int)
    (h : (cacheKeys s.cache).Nodup) : (cacheKeys (preloadAt dec s z).cache).Nodup := by
  cases preloadAt_cache dec s z with
  | inl hc =>
    obtain ⟨i, v, hc⟩ := hc
    rw [hc]
    exact nodup_dictInsert i v _ h
  | inr hc => rw [hc]; exact h

theorem nearbyFold_frame (dec : Dec) (offs : List Int) (s : ViewerSt) :
    (nearbyFold dec offs s).files = s.files ∧
    (nearbyFold dec offs s).all_files = s.all_files ∧
    (nearbyFold dec offs s).index = s.index ∧
    (nearbyFold dec offs s).ratings = s.ratings := by
  induction offs generalizing s with
  | nil => exact ⟨rfl, rfl, rfl, rfl⟩
  | cons o os ih =>
    have h1 := preloadAt_frame dec s ((s.index : Int) + o)
    have h2 := ih (preloadAt dec s ((s.index : Int) + o))
    unfold nearbyFold at h2 ⊢
    simp only [List.foldl_cons]
    exact ⟨h2.1.trans h1.1, h2.2.1.trans h1.2.1, h2.2.2.1.trans h1.2.2.1,
      h2.2.2.2.trans h1.2.2.2⟩

theorem nearbyFold_nodup (dec : Dec) (offs : List Int) (s : ViewerSt)
    (h : (cacheKeys s.cache).Nodup) : (cacheKeys (nearbyFold dec offs s).cache).Nodup := by
  induction offs generalizing s with
  | nil => exact h
  | cons o os ih =>
    unfold nearbyFold
    simp only [List.foldl_cons]
    exact ih _ (preloadAt_nodup dec s _ h)

theorem trim_frame (s : ViewerSt) :
    (trim_cache s).files = s.files ∧ (trim_cache s).all_files = s.all_files ∧
    (trim_cache s).index = s.index ∧ (trim_cache s).ratings = s.ratings :=
  ⟨rfl, rfl, rfl, rfl⟩

theorem trim_window (s : ViewerSt) (h : (cacheKeys s.cache).Nodup) :
    cacheWindowOK (trim_cache s) := by
  constructor
  · show (cacheKeys (s.cache.filter _)).Nodup
    rw [cacheKeys_filter (fun x => decide (natDist x s.index ≤ CACHE_SIZE / 2))]
    exact h.filter _
  · intro k hk
    have : k ∈ (cacheKeys s.cache).filter
        (fun x => decide (natDist x s.index ≤ CACHE_SIZE / 2)) := by
      have := hk
      rw [show (trim_cache s).cache = s.cache.filter
          (fun kv => decide (natDist kv.1 s.index ≤ CACHE_SIZE / 2)) from rfl] at this
      rw [cacheKeys_filter (fun x => decide (natDist x s.index ≤ CACHE_SIZE / 2))] at this
      exact this
    have := (List.mem_filter.mp this).2
    exact of_decide_eq_true this

theorem preload_nearby_window (dec : Dec) (s : ViewerSt)
    (h : (cacheKeys s.cache).Nodup) : cacheWindowOK (preload_nearby dec s) := by
  unfold preload_nearby
  exact trim_window _ (nearbyFold_nodup dec preload_offsets s h)

theorem thumbRangeAux_frame (l : List Nat) (s : ViewerSt) :
    (l.foldl (fun st idx =>
        if idx ∈ st.thumbnails ∨ idx ∈ st.thumb_loading then st
        else { st with thumb_loading := insert idx st.thumb_loading }) s).cache = s.cache ∧
    (l.foldl (fun st idx =>
        if idx ∈ st.thumbnails ∨ idx ∈ st.thumb_loading then st
        else { st with thumb_loading := insert idx st.thumb_loading }) s).index = s.index ∧
    (l.foldl (fun st idx =>
        if idx ∈ st.thumbnails ∨ idx ∈ st.thumb_loading then st
        else { st with thumb_loading := insert idx st.thumb_loading }) s).files = s.files ∧
    (l.foldl (fun st idx =>
        if idx ∈ st.thumbnails ∨ idx ∈ st.thumb_loading then st
        else { st with thumb_loading := insert idx st.thumb_loading }) s).all_files = s.all_files ∧
    (l.foldl (fun st idx =>
        if idx ∈ st.thumbnails ∨ idx ∈ st.thumb_loading then st
        else { st with thumb_loading := insert idx st.thumb_loading }) s).ratings = s.ratings := by
  induction l generalizing s with
  | nil => exact ⟨rfl, rfl, rfl, rfl, rfl⟩
  | cons i l ih =>
    simp only [List.foldl_cons]
    by_cases h : i ∈ s.thumbnails ∨ i ∈ s.thumb_loading
    · rw [if_pos h]
      exact ih s
    · rw [if_neg h]
      have := ih { s with thumb_loading := insert i s.thumb_loading }
      simpa using this

theorem preload_thumbnails_frame (s : ViewerSt) :
    (preload_thumbnails s).cache = s.cache ∧
    (preload_thumbnails s).index = s.index ∧
    (preload_thumbnails s).files = s.files ∧
    (preload_thumbnails s).all_files = s.all_files ∧
    (preload_thumbnails s).ratings = s.ratings :=
  thumbRangeAux_frame _ _

theorem load_current_frame (fs : Fs) (dec : Dec) (s : ViewerSt) :
    (load_current fs dec s).1.files = s.files ∧
    (load_current fs dec s).1.all_files = s.all_files ∧
    (load_current fs dec s).1.index = s.index := by
  unfold load_current
  split_ifs with h
  · exact ⟨rfl, rfl, rfl⟩
  · dsimp only
    cases dictGet s.index s.cache with
    | some px =>
      dsimp only
      cases s.files[s.index]? with
      | some f =>
        dsimp only
        cases s.ratings (s.all_files.indexOf f) <;> exact ⟨rfl, rfl, rfl⟩
      | none => exact ⟨rfl, rfl, rfl⟩
    | none =>
      cases load_sync dec s s.index with
      | some px =>
        dsimp only
        split_ifs <;>
        · dsimp only
          cases s.files[s.index]? with
          | some f =>
            dsimp only
            cases (({ s with cache := dictInsert s.index px s.cache } : ViewerSt) :
                ViewerSt).ratings (s.all_files.indexOf f) <;> exact ⟨rfl, rfl, rfl⟩
          | none => exact ⟨rfl, rfl, rfl⟩
      | none =>
        dsimp only
        cases s.files[s.index]? with
        | some f =>
          dsimp only
          cases s.ratings (s.all_files.indexOf f) <;> exact ⟨rfl, rfl, rfl⟩
        | none => exact ⟨rfl, rfl, rfl⟩

theorem load_current_cache (fs : Fs) (dec : Dec) (s : ViewerSt) :
    (∃ v, (load_current fs dec s).1.cache = dictInsert s.index v s.cache) ∨
    (load_current fs dec s).1.cache = s.cache := by
  unfold load_current
  split_ifs with h
  · exact Or.inr rfl
  · dsimp only
    cases dictGet s.index s.cache with
    | some px =>
      dsimp only
      cases s.files[s.index]? with
      | some f =>
        dsimp only
        cases s.ratings (s.all_files.indexOf f) <;> exact Or.inr rfl
      | none => exact Or.inr rfl
    | none =>
      cases load_sync dec s s.index with
      | some px =>
        dsimp only
        split_ifs <;>
        · dsimp only
          cases s.files[s.index]? with
          | some f =>
            dsimp only
            cases (({ s with cache := dictInsert s.index px s.cache } : ViewerSt) :
                ViewerSt).ratings (s.all_files.indexOf f) <;> exact Or.inl ⟨px, rfl⟩
          | none => exact Or.inl ⟨px, rfl⟩
      | none =>
        dsimp only
        cases s.files[s.index]? with
        | some f =>
          dsimp only
          cases s.ratings (s.all_files.indexOf f) <;> exact Or.inr rfl
        | none => exact Or.inr rfl

theorem load_current_nodup (fs : Fs) (dec : Dec) (s : ViewerSt)
    (h : (cacheKeys s.cache).Nodup) :
    (cacheKeys (load_current fs dec s).1.cache).Nodup := by
  cases load_current_cache fs dec s with
  | inl hc =>
    obtain ⟨v, hc⟩ := hc
    rw [hc]
    exact nodup_dictInsert _ v _ h
  | inr hc => rw [hc]; exact h

theorem navigate_window_step (fs : Fs) (dec : Dec) (s : ViewerSt) (delta : Int)
    (hs : cacheWindowOK s) : cacheWindowOK (navigate fs dec s delta) := by
  unfold navigate
  dsimp only
  by_cases h : 0 ≤ (s.index : Int) + delta ∧ (s.index : Int) + delta < (s.files.length : Int)
  · rw [if_pos h]
    have h1 : (cacheKeys ({ s with index := ((s.index : Int) + delta).toNat } : ViewerSt).cache).Nodup := hs.1
    have h2 := load_current_nodup fs dec { s with index := ((s.index : Int) + delta).toNat } h1
    have h3 : cacheWindowOK (preload_nearby dec
        (load_current fs dec { s with index := ((s.index : Int) + delta).toNat }).1) :=
      preload_nearby_window dec _ h2
    have h4 := preload_thumbnails_frame (preload_nearby dec
        (load_current fs dec { s with index := ((s.index : Int) + delta).toNat }).1)
    constructor
    · rw [h4.1]
      exact h3.1
    · intro k hk
      rw [h4.1] at hk
      rw [h4.2.1]
      exact h3.2 k hk
  · rw [if_neg h]
    exact hs

theorem cacheWindow_size (s : ViewerSt) (hs : cacheWindowOK s) :
    s.cache.length ≤ CACHE_SIZE := by
  have hlen : s.cache.length = (cacheKeys s.cache).length := by
    simp [cacheKeys]
  rw [hlen]
  have hnd := hs.1
  have hsub : ∀ k ∈ (cacheKeys s.cache).toFinset,
      k ∈ Finset.Icc (s.index - 3) (s.index + 3) := by
    intro k hk
    have hw := hs.2 k (List.mem_toFinset.mp hk)
    simp only [Finset.mem_Icc]
    unfold natDist CACHE_SIZE at hw
    omega
  calc (cacheKeys s.cache).length = (cacheKeys s.cache).toFinset.card :=
        (List.toFinset_card_of_nodup hnd).symm
    _ ≤ (Finset.Icc (s.index - 3) (s.index + 3)).card := Finset.card_le_card hsub
    _ ≤ CACHE_SIZE := by
        rw [Nat.card_Icc]
        unfold CACHE_SIZE
        omega

/-- Claim C3: along every sequence of `_navigate` calls from a state whose
preview cache already satisfies the window invariant (e.g. the empty cache
of a fresh folder load), the invariant holds after every navigation — the
cache retains at most `CACHE_SIZE` (7) entries and every retained index `k`
satisfies `|k - index| ≤ CACHE_SIZE // 2` (3) — since each effective
navigation ends in `_trim_cache` and a vacuous navigation changes nothing. -/
theorem navigate_cache_window (fs : Fs) (dec : Dec) (s : ViewerSt)
    (hs : cacheWindowOK s) (deltas : List Int) :
    cacheWindowOK (deltas.foldl (navigate fs dec) s) ∧
    (deltas.foldl (navigate fs dec) s).cache.length ≤ CACHE_SIZE := by
  have hinv : cacheWindowOK (deltas.foldl (navigate fs dec) s) := by
    induction deltas generalizing s with
    | nil => exact hs
    | cons d ds ih =>
      simp only [List.foldl_cons]
      exact ih _ (navigate_window_step fs dec s d hs)
  exact ⟨hinv, cacheWindow_size _ hinv⟩

/-- A three-file starting state with an empty preview cache. -/
def navSt : ViewerSt :=
  { all_files := ["A.raw", "B.raw", "C.raw"], files := ["A.raw", "B.raw", "C.raw"],
    index := 0, cache := [], ratings := fun _ => none, loading := ∅,
    thumb_loading := ∅, thumbnails := ∅, min_rating_filter := 0 }

theorem navigate_cache_window_witness :
    cacheWindowOK navSt ∧
    (cacheWindowOK ([1, 1, -1].foldl (navigate (fun _ => none) some) navSt) ∧
     ([1, 1, -1].foldl (navigate (fun _ => none) some) navSt).cache.length ≤ CACHE_SIZE) :=
  ⟨by constructor <;> simp [cacheWindowOK, cacheKeys, navSt],
   navigate_cache_window (fun _ => none) some navSt
     (by constructor <;> simp [cacheWindowOK, cacheKeys, navSt]) [1, 1, -1]⟩

/-! ### Theorems about the rating filter (claims C5, C6) -/

/-- The subsequence of the original list whose resolved rating is at least
`k`, in original order — the spec's description of the filtered active
list. -/
def filteredList (fs : Fs) (s : ViewerSt) (k : Nat) : List String :=
  (s.all_files.enum.filter (fun p => decide (k ≤ resolvedRating fs s p.1))).map Prod.snd

theorem mem_of_getElem_some {l : List String} {i : Nat} {a : String}
    (h : l[i]? = some a) : a ∈ l := by
  rcases List.getElem?_eq_some.mp h with ⟨hlt, he⟩
  exact he ▸ List.getElem_mem hlt

theorem load_all_ratings_at (fs : Fs) (s : ViewerSt) (i : Nat)
    (h : i < s.all_files.length) :
    (load_all_ratings fs s).ratings i = some (resolvedRating fs s i) := by
  unfold load_all_ratings resolvedRating
  dsimp only
  cases hr : s.ratings i with
  | some r => rfl
  | none => rw [List.getElem?_eq_getElem h]

theorem ratingsGet_load_all (fs : Fs) (s : ViewerSt) (i : Nat)
    (h : i < s.all_files.length) :
    ratingsGet (load_all_ratings fs s) i = resolvedRating fs s i := by
  unfold ratingsGet
  rw [load_all_ratings_at fs s i h]
  rfl

/-- The ratings state after `_apply_filter` resolved all ratings. -/
def filterRatingsSt (fs : Fs) (s : ViewerSt) (k : Nat) : ViewerSt :=
  load_all_ratings fs { s with min_rating_filter := k }

/-- The list `_apply_filter` computes for a level `k ≥ 1`, as written in the
source (filter over the enumerated original list by `ratings.get(i, 0)`). -/
def filterListRaw (fs : Fs) (s : ViewerSt) (k : Nat) : List String :=
  ((filterRatingsSt fs s k).all_files.enum.filter
    (fun p => decide (k ≤ ratingsGet (filterRatingsSt fs s k) p.1))).map Prod.snd

set_option maxHeartbeats 1000000 in
theorem filterClear_fields (fs : Fs) (s : ViewerSt) (k : Nat) (hk : ¬ k = 0) :
    (filterClear fs s k).files = filterListRaw fs s k ∧
    (filterClear fs s k).all_files = s.all_files ∧
    (filterClear fs s k).index = s.index ∧
    (filterClear fs s k).ratings = (load_all_ratings fs s).ratings := by
  unfold filterClear
  dsimp only
  rw [if_neg hk]
  exact ⟨rfl, rfl, rfl, rfl⟩

theorem filterClear_zero (fs : Fs) (t : ViewerSt) :
    (filterClear fs t 0).files = t.all_files ∧
    (filterClear fs t 0).all_files = t.all_files := by
  unfold filterClear
  dsimp only
  rw [if_pos rfl]
  exact ⟨rfl, rfl⟩

theorem filterSelect_fields (s sC : ViewerSt) :
    (filterSelect s sC).files = sC.files ∧
    (filterSelect s sC).all_files = sC.all_files ∧
    (filterSelect s sC).ratings = sC.ratings := by
  unfold filterSelect
  cases currentFileOf s with
  | some f =>
    dsimp only
    by_cases h : f ∈ sC.files
    · rw [if_pos h]
      exact ⟨rfl, rfl, rfl⟩
    · rw [if_neg h]
      exact ⟨rfl, rfl, rfl⟩
  | none => exact ⟨rfl, rfl, rfl⟩

theorem filterSelect_index_mem (s sC : ViewerSt) (f : String)
    (hc : currentFileOf s = some f) (hm : f ∈ sC.files) :
    (filterSelect s sC).index = sC.files.indexOf f := by
  unfold filterSelect
  rw [hc]
  dsimp only
  rw [if_pos hm]

theorem filterSelect_index_nomem (s sC : ViewerSt) (f : String)
    (hc : currentFileOf s = some f) (hm : f ∉ sC.files) :
    (filterSelect s sC).index = 0 := by
  unfold filterSelect
  rw [hc]
  dsimp only
  rw [if_neg hm]

theorem filterSelect_index_none (s sC : ViewerSt)
    (hc : currentFileOf s = none) :
    (filterSelect s sC).index = 0 := by
  unfold filterSelect
  rw [hc]

theorem filterListRaw_eq (fs : Fs) (s : ViewerSt) (k : Nat) :
    filterListRaw fs s k = filteredList fs s k := by
  unfold filterListRaw filteredList
  have hall : (filterRatingsSt fs s k).all_files = s.all_files := rfl
  rw [hall]
  congr 1
  apply List.filter_congr
  intro p hp
  have hmem := List.mem_enum_iff_getElem?.mp hp
  have hlt : p.1 < s.all_files.length := by
    rcases List.getElem?_eq_some.mp hmem with ⟨h, _⟩
    exact h
  have hrg := ratingsGet_load_all fs { s with min_rating_filter := k } p.1 hlt
  rw [show ratingsGet (filterRatingsSt fs s k) p.1 = resolvedRating fs s p.1 from hrg]

theorem filteredList_subset (fs : Fs) (s : ViewerSt) (k : Nat) {f : String}
    (h : f ∈ filteredList fs s k) : f ∈ s.all_files := by
  unfold filteredList at h
  rcases List.mem_map.mp h with ⟨p, hp, rfl⟩
  have hpe := (List.mem_filter.mp hp).1
  exact mem_of_getElem_some (List.mem_enum_iff_getElem?.mp hpe)

theorem load_current_ratings_stable (fs : Fs) (dec : Dec) (s : ViewerSt)
    (h : ∀ f ∈ s.files, (s.ratings (s.all_files.indexOf f)).isSome = true) :
    (load_current fs dec s).1.ratings = s.ratings := by
  unfold load_current
  split_ifs with hfe
  · rfl
  · dsimp only
    cases dictGet s.index s.cache with
    | some px =>
      dsimp only
      cases hf : s.files[s.index]? with
      | some f =>
        dsimp only
        cases hr : s.ratings (s.all_files.indexOf f) with
        | some r => rfl
        | none =>
          have hs := h f (mem_of_getElem_some hf)
          rw [hr] at hs
          simp at hs
      | none => rfl
    | none =>
      cases load_sync dec s s.index with
      | some px =>
        dsimp only
        split_ifs <;>
        · dsimp only
          cases hf : s.files[s.index]? with
          | some f =>
            dsimp only
            cases hr : s.ratings (s.all_files.indexOf f) with
            | some r => rfl
            | none =>
              have hs := h f (mem_of_getElem_some hf)
              rw [hr] at hs
              simp at hs
          | none => rfl
      | none =>
        dsimp only
        cases hf : s.files[s.index]? with
        | some f =>
          dsimp only
          cases hr : s.ratings (s.all_files.indexOf f) with
          | some r => rfl
          | none =>
            have hs := h f (mem_of_getElem_some hf)
            rw [hr] at hs
            simp at hs
        | none => rfl

theorem preload_nearby_frame (dec : Dec) (s : ViewerSt) :
    (preload_nearby dec s).files = s.files ∧
    (preload_nearby dec s).all_files = s.all_files ∧
    (preload_nearby dec s).index = s.index ∧
    (preload_nearby dec s).ratings = s.ratings := by
  unfold preload_nearby
  have h1 := nearbyFold_frame dec preload_offsets s
  have h2 := trim_frame (nearbyFold dec preload_offsets s)
  exact ⟨h2.1.trans h1.1, h2.2.1.trans h1.2.1, h2.2.2.1.trans h1.2.2.1,
    h2.2.2.2.trans h1.2.2.2⟩

theorem apply_filter_main (fs : Fs) (dec : Dec) (s : ViewerSt) (k : Nat)
    (hk : 1 ≤ k) :
    (apply_filter fs dec s k).1.files = filteredList fs s k ∧
    (apply_filter fs dec s k).1.all_files = s.all_files ∧
    (apply_filter fs dec s k).1.ratings = (load_all_ratings fs s).ratings ∧
    (filteredList fs s k = [] → (apply_filter fs dec s k).1.index = s.index) ∧
    (∀ cur, currentFileOf s = some cur → cur ∈ filteredList fs s k →
      (apply_filter fs dec s k).1.index = (filteredList fs s k).indexOf cur) ∧
    (filteredList fs s k ≠ [] →
      (∀ cur, currentFileOf s = some cur → cur ∉ filteredList fs s k →
        (apply_filter fs dec s k).1.index = 0) ∧
      (currentFileOf s = none → (apply_filter fs dec s k).1.index = 0)) := by
  have hk0 : ¬ k = 0 := by omega
  have hCf := filterClear_fields fs s k hk0
  have hL : (filterClear fs s k).files = filteredList fs s k :=
    hCf.1.trans (filterListRaw_eq fs s k)
  unfold apply_filter
  dsimp only
  by_cases hemp : (filterClear fs s k).files = []
  · rw [if_pos hemp]
    dsimp only
    have hfl_emp : filteredList fs s k = [] := hL.symm.trans hemp
    refine ⟨hL, hCf.2.1, hCf.2.2.2, fun _ => hCf.2.2.1, ?_, ?_⟩
    · intro cur hcur hmem
      rw [hfl_emp] at hmem
      simp at hmem
    · intro hne
      exact absurd hfl_emp hne
  · rw [if_neg hemp]
    dsimp only
    have hsel := filterSelect_fields s (filterClear fs s k)
    have hfr := load_current_frame fs dec (filterSelect s (filterClear fs s k))
    have hpn := preload_nearby_frame dec
      (load_current fs dec (filterSelect s (filterClear fs s k))).1
    have hrs : (load_current fs dec (filterSelect s (filterClear fs s k))).1.ratings =
        (filterSelect s (filterClear fs s k)).ratings := by
      apply load_current_ratings_stable
      intro f hf
      rw [hsel.1, hL] at hf
      rw [hsel.2.2, hCf.2.2.2, hsel.2.1, hCf.2.1]
      have hfm : f ∈ s.all_files := filteredList_subset fs s k hf
      have hlt : s.all_files.indexOf f < s.all_files.length :=
        List.indexOf_lt_length.mpr hfm
      rw [load_all_ratings_at fs s _ hlt]
      rfl
    have hidx : (preload_nearby dec
        (load_current fs dec (filterSelect s (filterClear fs s k))).1).index =
        (filterSelect s (filterClear fs s k)).index := by
      rw [hpn.2.2.1, hfr.2.2]
    refine ⟨?_, ?_, ?_, ?_, ?_, ?_⟩
    · rw [hpn.1, hfr.1, hsel.1]
      exact hL
    · rw [hpn.2.1, hfr.2.1, hsel.2.1, hCf.2.1]
    · rw [hpn.2.2.2, hrs, hsel.2.2, hCf.2.2.2]
    · intro he
      exact absurd (hL.trans he) hemp
    · intro cur hcur hmem
      rw [hidx, filterSelect_index_mem s _ cur hcur (by rw [hL]; exact hmem), hL]
    · intro hne
      constructor
      · intro cur hcur hmem
        rw [hidx, filterSelect_index_nomem s _ cur hcur ?_]
        rw [hL]
        exact hmem
      · intro hcur
        rw [hidx, filterSelect_index_none s _ hcur]

/-- A two-file state whose items are all unrated, sitting on the second
item. -/
def emptyFilterSt : ViewerSt :=
  { all_files := ["A.raw", "B.raw"], files := ["A.raw", "B.raw"], index := 1,
    cache := [], ratings := fun i => if i ≤ 1 then some 0 else none, loading := ∅,
    thumb_loading := ∅, thumbnails := ∅, min_rating_filter := 0 }

/-- Claim C5, counterexample: when no item passes the filter the new active
list is empty, the previously selected item (index 1) is not in it, yet
`_apply_filter` leaves the index at 1 instead of resetting it to 0 (the
reset happens only inside `if self.files:`). -/
theorem filter_empty_keeps_index :
    (apply_filter (fun _ => none) some emptyFilterSt 2).1.files = [] ∧
    (apply_filter (fun _ => none) some emptyFilterSt 2).1.index = 1 := by
  decide

/-- Claim C5 (amended): for a level `k ≥ 1` applied with a valid current
index, the new active list is exactly the subsequence of the full original
list of items whose resolved rating is `≥ k`, in original order; when the
previously selected item is in the new list the selection is preserved
(the new index points at that item); when it is not but the new list is
non-empty the index resets to 0; when the new list is empty the index is
left unchanged (and the view is blanked). -/
theorem apply_filter_spec (fs : Fs) (dec : Dec) (s : ViewerSt) (k : Nat)
    (hk : 1 ≤ k) (hidx : s.index < s.files.length) :
    (apply_filter fs dec s k).1.files = filteredList fs s k ∧
    (apply_filter fs dec s k).1.all_files = s.all_files ∧
    (s.files.get ⟨s.index, hidx⟩ ∈ filteredList fs s k →
      (apply_filter fs dec s k).1.index =
        (filteredList fs s k).indexOf (s.files.get ⟨s.index, hidx⟩) ∧
      (apply_filter fs dec s k).1.files[(apply_filter fs dec s k).1.index]? =
        some (s.files.get ⟨s.index, hidx⟩)) ∧
    (s.files.get ⟨s.index, hidx⟩ ∉ filteredList fs s k →
      filteredList fs s k ≠ [] → (apply_filter fs dec s k).1.index = 0) ∧
    (filteredList fs s k = [] → (apply_filter fs dec s k).1.index = s.index) := by
  have hm := apply_filter_main fs dec s k hk
  have hcur : currentFileOf s = some (s.files.get ⟨s.index, hidx⟩) := by
    unfold currentFileOf
    have hne : s.files ≠ [] := by
      intro hnil
      rw [hnil] at hidx
      simp at hidx
    rw [if_pos ⟨hne, hidx⟩, List.getElem?_eq_getElem hidx]
    simp [List.get_eq_getElem]
  refine ⟨hm.1, hm.2.1, ?_, ?_, hm.2.2.2.1⟩
  · intro hmem
    have hieq := hm.2.2.2.2.1 _ hcur hmem
    refine ⟨hieq, ?_⟩
    rw [hm.1, hieq]
    have hlt : (filteredList fs s k).indexOf (s.files.get ⟨s.index, hidx⟩) <
        (filteredList fs s k).length := List.indexOf_lt_length.mpr hmem
    rw [List.getElem?_eq_getElem hlt, List.getElem_indexOf hlt]
  · intro hnm hne
    exact (hm.2.2.2.2.2 hne).1 _ hcur hnm

/-- The rating store of the spec's scenario: B carries 2, C carries 4,
D carries 2 and A has no sidecar. -/
def scenFs : Fs := fun q =>
  if q = "B.xmp" then some "<x xmp:Rating=\"2\"/>"
  else if q = "C.xmp" then some "<x xmp:Rating=\"4\"/>"
  else if q = "D.xmp" then some "<x xmp:Rating=\"2\"/>"
  else none

/-- The folder of the spec's scenario, sitting on item C. -/
def scenSt : ViewerSt :=
  { all_files := ["A.raw", "B.raw", "C.raw", "D.raw"],
    files := ["A.raw", "B.raw", "C.raw", "D.raw"], index := 2,
    cache := [], ratings := fun _ => none, loading := ∅, thumb_loading := ∅,
    thumbnails := ∅, min_rating_filter := 0 }

theorem apply_filter_spec_witness :
    (1 ≤ 2 ∧ scenSt.index < scenSt.files.length) ∧
    filteredList scenFs scenSt 2 = ["B.raw", "C.raw", "D.raw"] ∧
    (apply_filter scenFs some scenSt 2).1.files = filteredList scenFs scenSt 2 ∧
    (apply_filter scenFs some scenSt 2).1.index = 1 :=
  ⟨⟨by decide, by decide⟩, by decide,
   (apply_filter_spec scenFs some scenSt 2 (by decide) (by decide)).1, by decide⟩

theorem apply_filter_zero_files (fs : Fs) (dec : Dec) (t : ViewerSt) :
    (apply_filter fs dec t 0).1.files = t.all_files ∧
    (apply_filter fs dec t 0).1.all_files = t.all_files := by
  have hc := filterClear_zero fs t
  unfold apply_filter
  dsimp only
  by_cases hemp : (filterClear fs t 0).files = []
  · rw [if_pos hemp]
    exact ⟨hc.1, hc.2⟩
  · rw [if_neg hemp]
    dsimp only
    have hsel := filterSelect_fields t (filterClear fs t 0)
    have hfr := load_current_frame fs dec (filterSelect t (filterClear fs t 0))
    have hpn := preload_nearby_frame dec
      (load_current fs dec (filterSelect t (filterClear fs t 0))).1
    constructor
    · rw [hpn.1, hfr.1, hsel.1, hc.1]
    · rw [hpn.2.1, hfr.2.1, hsel.2.1, hc.2]

theorem resolvedRating_stable (fs : Fs) (s t : ViewerSt)
    (hall : t.all_files = s.all_files)
    (hrat : t.ratings = (load_all_ratings fs s).ratings) (i : Nat) :
    resolvedRating fs t i = resolvedRating fs s i := by
  unfold resolvedRating
  rw [hrat, hall]
  unfold load_all_ratings
  dsimp only
  cases hr : s.ratings i with
  | some r => rfl
  | none =>
    cases hg : s.all_files[i]? with
    | some f => rfl
    | none => rfl

theorem filteredList_stable (fs : Fs) (s t : ViewerSt)
    (hall : t.all_files = s.all_files)
    (hrat : t.ratings = (load_all_ratings fs s).ratings) (k : Nat) :
    filteredList fs t k = filteredList fs s k := by
  unfold filteredList
  rw [hall]
  congr 1
  apply List.filter_congr
  intro p hp
  rw [resolvedRating_stable fs s t hall hrat p.1]

/-- Claim C6: starting from the unfiltered active list and a fixed rating
assignment, `setFilter(k)` (k ≥ 1) followed by `setFilter(0)` restores the
original active list in its original order, and applying `setFilter(k)`
twice in a row yields the same active list both times. -/
theorem filter_restore_idempotent (fs : Fs) (dec : Dec) (s : ViewerSt) (k : Nat)
    (hk : 1 ≤ k) (hfull : s.files = s.all_files) :
    (apply_filter fs dec (apply_filter fs dec s k).1 0).1.files = s.files ∧
    (apply_filter fs dec (apply_filter fs dec s k).1 k).1.files =
      (apply_filter fs dec s k).1.files := by
  have hm := apply_filter_main fs dec s k hk
  constructor
  · rw [(apply_filter_zero_files fs dec _).1, hm.2.1, hfull]
  · have hm2 := apply_filter_main fs dec (apply_filter fs dec s k).1 k hk
    rw [hm2.1, hm.1]
    exact filteredList_stable fs s _ hm.2.1 hm.2.2.1 k

theorem filter_restore_idempotent_witness :
    (1 ≤ 3 ∧ scenSt.files = scenSt.all_files) ∧
    (apply_filter scenFs some (apply_filter scenFs some scenSt 3).1 0).1.files = scenSt.files ∧
    (apply_filter scenFs some (apply_filter scenFs some scenSt 3).1 3).1.files =
      (apply_filter scenFs some scenSt 3).1.files :=
  ⟨⟨by decide, by decide⟩,
   (filter_restore_idempotent scenFs some scenSt 3 (by decide) (by decide)).1,
   (filter_restore_idempotent scenFs some scenSt 3 (by decide) (by decide)).2⟩

/-! ### The progressive background sweep (claim C7)

`_preload_all_thumbnails` (viewer.py lines 794-805) initialises the cursor
state `(_bg_preload_idx, _bg_preload_start, _bg_preload_wrapped)` at the
current index and starts a 100ms timer; every tick runs
`_background_preload_batch` (lines 807-840).  The machine below carries
exactly that cursor state together with the shared
`filmstrip.thumbnails` / `thumb_loading` sets it consults, the list length,
and the timer's running flag.  The inner `while` loop is not structurally
terminating on arbitrary states (the reachable ones satisfy `sweepInv`), so
it is written with explicit fuel and the theorems show the fuel suffices. -/

/-- The sweep state: `cursor` is `_bg_preload_idx`, `start` is
`_bg_preload_start`, `wrapped` is `_bg_preload_wrapped`, `thumbs` the
filmstrip thumbnail keys, `loading` the thumbnail in-flight set, `total`
the active-list length, `active` whether the timer runs. -/
structure SweepSt where
  cursor : Nat
  start : Nat
  wrapped : Bool
  thumbs : Finset Nat
  loading : Finset Nat
  total : Nat
  active : Bool

/-- Termination measure of the sweep cursor. -/
def sweepMeasure (s : SweepSt) : Nat :=
  if s.wrapped = true then s.start - s.cursor
  else (s.total - s.cursor) + s.start + 1

/-- The states `_preload_all_thumbnails` and its ticks can reach. -/
def sweepInv (s : SweepSt) : Prop :=
  s.start ≤ s.total ∧
  (s.wrapped = true → s.cursor ≤ s.start) ∧
  (s.wrapped = false → s.start ≤ s.cursor)

/-- An index the sweep would submit: neither cached in the filmstrip nor in
flight. -/
def newIdx (s : SweepSt) (i : Nat) : Bool :=
  decide (i ∉ s.thumbs ∧ i ∉ s.loading)

/-- The indices the cursor has yet to visit. -/
def visits (s : SweepSt) : List Nat :=
  if s.wrapped = true then List.range' s.cursor (s.start - s.cursor)
  else List.range' s.cursor (s.total - s.cursor) ++ List.range s.start

/-- The `while loaded < batch_size` loop of `_background_preload_batch`
(viewer.py lines 817-840), with fuel: stop the timer when the cursor has
wrapped back to the start; wrap at the end of the list; otherwise advance
the cursor and, unless the index is already cached or in flight, mark it in
flight and submit it (recorded in the returned list). -/
def batchLoopF : Nat → SweepSt → Nat → Option (SweepSt × List Nat)
  | 0, _, _ => none
  | fuel + 1, s, loaded =>
    if 5 ≤ loaded then some (s, [])
    else
      let idx := s.cursor
      if s.wrapped = true ∧ s.start ≤ idx then some ({ s with active := false }, [])
      else if s.total ≤ idx then
        batchLoopF fuel { s with cursor := 0, wrapped := true } loaded
      else
        if idx ∈ s.thumbs ∨ idx ∈ s.loading then
          batchLoopF fuel { s with cursor := idx + 1 } loaded
        else
          match batchLoopF fuel
              { s with cursor := idx + 1, loading := insert idx s.loading }
              (loaded + 1) with
          | none => none
          | some pr => some (pr.1, idx :: pr.2)

/-- One timer tick of `_background_preload_batch`: stop when the list is
empty, else run a batch of at most 5 submissions. -/
def tickF (fuel : Nat) (s : SweepSt) : Option (SweepSt × List Nat) :=
  if s.total = 0 then some ({ s with active := false }, [])
  else batchLoopF fuel s 0

/-- Run the timer: fire ticks while the timer is active, collecting each
tick's submissions. -/
def runSweepF : Nat → Nat → SweepSt → Option (List (List Nat) × SweepSt)
  | 0, _, s => if s.active = true then none else some ([], s)
  | ticks + 1, fuel, s =>
    if s.active = true then
      match tickF fuel s with
      | none => none
      | some pr =>
        match runSweepF ticks fuel pr.1 with
        | none => none
        | some pr2 => some (pr.2 :: pr2.1, pr2.2)
    else some ([], s)

/-- `_preload_all_thumbnails`: cursor and start at the current index,
not wrapped, timer started. -/
def initSweep (T L : Finset Nat) (n start : Nat) : SweepSt :=
  { cursor := start, start := start, wrapped := false, thumbs := T,
    loading := L, total := n, active := true }

theorem visits_nodup (s : SweepSt) (hinv : sweepInv s) : (visits s).Nodup := by
  unfold visits
  cases hw : s.wrapped with
  | true =>
    simp only [hw, if_pos]
    exact List.nodup_range' _ _
  | false =>
    rw [if_neg (by simp)]
    rw [List.nodup_append]
    refine ⟨List.nodup_range' _ _, List.nodup_range _, ?_⟩
    intro x hx1 hx2
    have h1 : s.cursor ≤ x := by
      have := List.mem_range'_1.mp hx1
      exact this.1
    have h2 : x < s.start := List.mem_range.mp hx2
    have h3 : s.start ≤ s.cursor := hinv.2.2 hw
    omega

theorem visits_congr (s t : SweepSt) (h1 : t.cursor = s.cursor)
    (h2 : t.start = s.start) (h3 : t.wrapped = s.wrapped)
    (h4 : t.total = s.total) : visits t = visits s := by
  unfold visits
  rw [h1, h2, h3, h4]

theorem newIdx_congr (s t : SweepSt) (hth : t.thumbs = s.thumbs)
    (hld : t.loading = s.loading) : newIdx t = newIdx s := by
  funext i
  unfold newIdx
  rw [hth, hld]

theorem visits_stop (s : SweepSt) (hw : s.wrapped = true)
    (hge : s.start ≤ s.cursor) : visits s = [] := by
  unfold visits
  simp only [hw, if_pos]
  rw [show s.start - s.cursor = 0 by omega]
  rfl

theorem visits_wrap (s : SweepSt) (hw : s.wrapped = false)
    (hge : s.total ≤ s.cursor) :
    visits s = visits { s with cursor := 0, wrapped := true } := by
  unfold visits
  simp only [hw]
  rw [if_neg (by simp)]
  rw [show s.total - s.cursor = 0 by omega]
  simp only [List.range'_zero, List.nil_append, if_pos]
  rw [Nat.sub_zero, List.range_eq_range']

theorem visits_cons_unwrapped (s : SweepSt) (hw : s.wrapped = false)
    (hlt : s.cursor < s.total) :
    visits s = s.cursor :: visits { s with cursor := s.cursor + 1 } := by
  unfold visits
  simp only [hw]
  rw [if_neg (by simp), if_neg (by simp)]
  rw [show s.total - s.cursor = (s.total - (s.cursor + 1)) + 1 by omega]
  rw [List.range'_succ]
  rfl

theorem visits_cons_wrapped (s : SweepSt) (hw : s.wrapped = true)
    (hlt : s.cursor < s.start) :
    visits s = s.cursor :: visits { s with cursor := s.cursor + 1 } := by
  unfold visits
  simp only [hw, if_pos]
  rw [show s.start - s.cursor = (s.start - (s.cursor + 1)) + 1 by omega]
  rw [List.range'_succ]

theorem newIdx_insert_ne (s t : SweepSt) (idx i : Nat)
    (hth : t.thumbs = s.thumbs) (hld : t.loading = insert idx s.loading)
    (hne : i ≠ idx) : newIdx t i = newIdx s i := by
  unfold newIdx
  rw [hth, hld]
  simp [Finset.mem_insert, hne]

theorem visits_total_zero (s : SweepSt) (hinv : sweepInv s)
    (htot : s.total = 0) : visits s = [] := by
  have hstart : s.start = 0 := by
    have := hinv.1
    omega
  cases hw : s.wrapped with
  | true => exact visits_stop s hw (by omega)
  | false =>
    unfold visits
    simp only [hw]
    rw [if_neg (by simp)]
    rw [htot, hstart]
    simp

theorem batchLoopF_spec (fuel : Nat) : ∀ (s : SweepSt) (loaded : Nat),
    sweepInv s → sweepMeasure s < fuel → loaded ≤ 5 → s.active = true →
    ∃ s1 out, batchLoopF fuel s loaded = some (s1, out) ∧
      sweepInv s1 ∧
      sweepMeasure s1 + out.length ≤ sweepMeasure s ∧
      out.length + loaded ≤ 5 ∧
      (s1.active = true → out.length = 5 - loaded) ∧
      (visits s).filter (newIdx s) = out ++ (visits s1).filter (newIdx s1) ∧
      (s1.active = false → (visits s1).filter (newIdx s1) = []) ∧
      s1.total = s.total := by
  induction fuel with
  | zero =>
    intro s loaded hinv hfuel hload hact
    omega
  | succ fuel ih =>
    intro s loaded hinv hfuel hload hact
    by_cases hl : 5 ≤ loaded
    · refine ⟨s, [], ?_, hinv, ?_, ?_, ?_, ?_, ?_, rfl⟩
      · simp only [batchLoopF]
        rw [if_pos hl]
      · simp only [List.length_nil]
        omega
      · simp only [List.length_nil]
        omega
      · intro _
        simp only [List.length_nil]
        omega
      · simp only [List.nil_append]
      · intro hia
        rw [hia] at hact
        exact absurd hact (by decide)
    · by_cases hstop : s.wrapped = true ∧ s.start ≤ s.cursor
      · refine ⟨{ s with active := false }, [], ?_, ⟨hinv.1, hinv.2.1, hinv.2.2⟩,
          ?_, ?_, ?_, ?_, ?_, rfl⟩
        · simp only [batchLoopF]
          rw [if_neg hl]
          rw [if_pos hstop]
        · have hms : sweepMeasure { s with active := false } = sweepMeasure s := rfl
          simp only [List.length_nil]
          omega
        · simp only [List.length_nil]
          omega
        · intro hia
          simp at hia
        · have hv : visits { s with active := false } = visits s :=
            visits_congr _ _ rfl rfl rfl rfl
          have hn : newIdx { s with active := false } = newIdx s :=
            newIdx_congr _ _ rfl rfl
          rw [hv, hn]
          simp
        · intro _
          have hv : visits { s with active := false } = visits s :=
            visits_congr _ _ rfl rfl rfl rfl
          have hn : newIdx { s with active := false } = newIdx s :=
            newIdx_congr _ _ rfl rfl
          rw [hv, hn, visits_stop s hstop.1 hstop.2]
          rfl
      · by_cases hwrap : s.total ≤ s.cursor
        · -- wrap around at the end of the list
          have hw : s.wrapped = false := by
            cases hwb : s.wrapped with
            | false => rfl
            | true =>
              exfalso
              apply hstop
              exact ⟨hwb, by have := hinv.1; omega⟩
          have hinvW : sweepInv { s with cursor := 0, wrapped := true } :=
            ⟨hinv.1, fun _ => Nat.zero_le _, fun h => by simp at h⟩
          have hmW : sweepMeasure { s with cursor := 0, wrapped := true } <
              sweepMeasure s := by
            unfold sweepMeasure
            simp [hw]
            omega
          obtain ⟨s1, out, heq, h2, h3, h4, h5, h6, h7, h8⟩ :=
            ih { s with cursor := 0, wrapped := true } loaded hinvW (by omega) hload hact
          refine ⟨s1, out, ?_, h2, by omega, h4, h5, ?_, h7, h8⟩
          · simp only [batchLoopF]
            rw [if_neg hl]
            rw [if_neg hstop, if_pos hwrap]
            exact heq
          · have hv := visits_wrap s hw hwrap
            have hn : newIdx { s with cursor := 0, wrapped := true } = newIdx s :=
              newIdx_congr _ _ rfl rfl
            rw [hv, ← hn]
            exact h6
        · have hlt : s.cursor < s.total := by omega
          have hcw : s.wrapped = true → s.cursor < s.start := by
            intro hwb
            by_contra hge
            exact hstop ⟨hwb, by omega⟩
          have hconsA : visits s = s.cursor :: visits { s with cursor := s.cursor + 1 } := by
            rcases Bool.eq_false_or_eq_true s.wrapped with hwb | hwb
            · exact visits_cons_wrapped s hwb (hcw hwb)
            · exact visits_cons_unwrapped s hwb hlt
          by_cases hskip : s.cursor ∈ s.thumbs ∨ s.cursor ∈ s.loading
          · -- already cached or in flight: advance the cursor, submit nothing
            have hinvA : sweepInv { s with cursor := s.cursor + 1 } := by
              refine ⟨hinv.1, ?_, ?_⟩
              · intro hwb
                have := hcw hwb
                show s.cursor + 1 ≤ s.start
                omega
              · intro hwb
                have := hinv.2.2 hwb
                show s.start ≤ s.cursor + 1
                omega
            have hmA : sweepMeasure { s with cursor := s.cursor + 1 } <
                sweepMeasure s := by
              unfold sweepMeasure
              cases hwb : s.wrapped with
              | false =>
                simp
                omega
              | true =>
                have := hcw hwb
                simp
                omega
            obtain ⟨s1, out, heq, h2, h3, h4, h5, h6, h7, h8⟩ :=
              ih { s with cursor := s.cursor + 1 } loaded hinvA (by omega) hload hact
            refine ⟨s1, out, ?_, h2, by omega, h4, h5, ?_, h7, h8⟩
            · simp only [batchLoopF]
              rw [if_neg hl]
              rw [if_neg hstop, if_neg hwrap]
              rw [if_pos hskip]
              exact heq
            · have hni : newIdx s s.cursor = false := by
                unfold newIdx
                simp only [decide_eq_false_iff_not]
                rintro ⟨ha, hb⟩
                rcases hskip with h | h
                · exact ha h
                · exact hb h
              have hn : newIdx { s with cursor := s.cursor + 1 } = newIdx s :=
                newIdx_congr _ _ rfl rfl
              rw [hconsA, List.filter_cons, hni]
              simp only [Bool.false_eq_true, if_false]
              rw [← hn]
              exact h6
          · -- fresh index: mark in flight and submit
            have hinvB : sweepInv { s with cursor := s.cursor + 1, loading := insert s.cursor s.loading } := by
              refine ⟨hinv.1, ?_, ?_⟩
              · intro hwb
                have := hcw hwb
                show s.cursor + 1 ≤ s.start
                omega
              · intro hwb
                have := hinv.2.2 hwb
                show s.start ≤ s.cursor + 1
                omega
            have hmB : sweepMeasure { s with cursor := s.cursor + 1, loading := insert s.cursor s.loading } < sweepMeasure s := by
              unfold sweepMeasure
              cases hwb : s.wrapped with
              | false =>
                simp
                omega
              | true =>
                have := hcw hwb
                simp
                omega
            obtain ⟨s1, out2, heq, h2, h3, h4, h5, h6, h7, h8⟩ :=
              ih { s with cursor := s.cursor + 1, loading := insert s.cursor s.loading }
                (loaded + 1) hinvB (by omega) (by omega) hact
            have hvB : visits s = s.cursor :: visits { s with cursor := s.cursor + 1, loading := insert s.cursor s.loading } := by
              rw [hconsA]
              rw [visits_congr { s with cursor := s.cursor + 1 }
                { s with cursor := s.cursor + 1, loading := insert s.cursor s.loading }
                rfl rfl rfl rfl]
            refine ⟨s1, s.cursor :: out2, ?_, h2, ?_, ?_, ?_, ?_, h7, h8⟩
            · simp only [batchLoopF]
              rw [if_neg hl]
              rw [if_neg hstop, if_neg hwrap]
              rw [if_neg hskip, heq]
            · simp only [List.length_cons]
              omega
            · simp only [List.length_cons]
              omega
            · intro ha
              have := h5 ha
              simp only [List.length_cons]
              omega
            · have hni : newIdx s s.cursor = true := by
                unfold newIdx
                simp only [decide_eq_true_eq]
                push_neg at hskip
                exact hskip
              have hnodup := visits_nodup s hinv
              rw [hvB] at hnodup
              have hcnot := (List.nodup_cons.mp hnodup).1
              have hftail : (visits { s with cursor := s.cursor + 1, loading := insert s.cursor s.loading }).filter (newIdx { s with cursor := s.cursor + 1, loading := insert s.cursor s.loading }) = (visits { s with cursor := s.cursor + 1, loading := insert s.cursor s.loading }).filter (newIdx s) := by
                apply List.filter_congr
                intro i hi
                exact newIdx_insert_ne s _ s.cursor i rfl rfl
                  (fun he => hcnot (he ▸ hi))
              rw [hvB, List.filter_cons, hni]
              simp only [if_pos]
              rw [List.cons_append]
              rw [← hftail]
              rw [h6]

theorem runSweepF_inactive (ticks fuel : Nat) (s : SweepSt)
    (h : s.active = false) : runSweepF ticks fuel s = some ([], s) := by
  cases ticks with
  | zero =>
    simp only [runSweepF]
    rw [if_neg (by simp [h])]
  | succ t =>
    simp only [runSweepF]
    rw [if_neg (by simp [h])]

theorem tickF_total_pos (fuel : Nat) (s : SweepSt) (h : ¬ s.total = 0) :
    tickF fuel s = batchLoopF fuel s 0 := by
  unfold tickF
  rw [if_neg h]

theorem runSweepF_spec (ticks : Nat) : ∀ (fuel : Nat) (s : SweepSt),
    sweepInv s → s.active = true → sweepMeasure s < ticks → sweepMeasure s < fuel →
    ∃ blocks sfin, runSweepF ticks fuel s = some (blocks, sfin) ∧
      sfin.active = false ∧
      blocks.join = (visits s).filter (newIdx s) ∧
      (∀ b ∈ blocks, b.length ≤ 5) := by
  induction ticks with
  | zero =>
    intro fuel s hinv hact hticks hfuel
    omega
  | succ ticks ih =>
    intro fuel s hinv hact hticks hfuel
    by_cases htot : s.total = 0
    · refine ⟨[[]], { s with active := false }, ?_, rfl, ?_, ?_⟩
      · simp only [runSweepF]
        rw [if_pos hact]
        rw [show tickF fuel s = some ({ s with active := false }, []) from by
          unfold tickF; rw [if_pos htot]]
        dsimp only
        rw [runSweepF_inactive ticks fuel { s with active := false } rfl]
      · rw [visits_total_zero s hinv htot]
        simp
      · intro b hb
        simp at hb
        subst hb
        simp
    · obtain ⟨s1, out, heq, h2, h3, h4, h5, h6, h7, h8⟩ :=
        batchLoopF_spec fuel s 0 hinv hfuel (by omega) hact
      cases hact1 : s1.active with
      | false =>
        refine ⟨[out], s1, ?_, hact1, ?_, ?_⟩
        · simp only [runSweepF]
          rw [if_pos hact, tickF_total_pos fuel s htot, heq]
          dsimp only
          rw [runSweepF_inactive ticks fuel s1 hact1]
        · rw [h6, h7 hact1]
          simp
        · intro b hb
          simp at hb
          subst hb
          omega
      | true =>
        have hlen5 : out.length = 5 := by
          have := h5 hact1
          omega
        have hms : sweepMeasure s1 < sweepMeasure s := by omega
        obtain ⟨blocks2, sfin, hrun2, hfin, hjoin2, hb2⟩ :=
          ih fuel s1 h2 hact1 (by omega) (by omega)
        refine ⟨out :: blocks2, sfin, ?_, hfin, ?_, ?_⟩
        · simp only [runSweepF]
          rw [if_pos hact, tickF_total_pos fuel s htot, heq]
          dsimp only
          rw [hrun2]
        · simp only [List.join] at hjoin2 ⊢
          rw [List.flatten_cons, hjoin2, h6]
        · intro b hb
          rcases List.mem_cons.mp hb with hb | hb
          · subst hb
            omega
          · exact hb2 b hb

/-- Claim C7: a progressive sweep started at index `start` of a non-empty
`n`-item list visits `start..n-1`, wraps to `0..start-1`, and terminates
(the timer is stopped within the given number of ticks); across the whole
sweep it submits a thumbnail job exactly once for each visited index that
was neither in the filmstrip thumbnail map nor in the thumbnail in-flight
set (already-cached or in-flight indices are skipped, never duplicated —
the concatenated submission list is exactly the filtered visit sequence and
has no duplicates); and every timer tick submits at most 5 jobs. -/
theorem sweep_progressive_spec (T L : Finset Nat) (n start : Nat) (hs : start < n) :
    ∃ blocks sfin,
      runSweepF (sweepMeasure (initSweep T L n start) + 1)
          (sweepMeasure (initSweep T L n start) + 1) (initSweep T L n start) =
        some (blocks, sfin) ∧
      sfin.active = false ∧
      blocks.join = (List.range' start (n - start) ++ List.range start).filter
        (fun i => decide (i ∉ T ∧ i ∉ L)) ∧
      blocks.join.Nodup ∧
      (∀ b ∈ blocks, b.length ≤ 5) := by
  have hinv : sweepInv (initSweep T L n start) :=
    ⟨Nat.le_of_lt hs, fun h => by simp [initSweep] at h, fun _ => le_refl _⟩
  obtain ⟨blocks, sfin, hrun, hact, hjoin, hlen⟩ :=
    runSweepF_spec (sweepMeasure (initSweep T L n start) + 1)
      (sweepMeasure (initSweep T L n start) + 1) (initSweep T L n start)
      hinv rfl (Nat.lt_succ_self _) (Nat.lt_succ_self _)
  refine ⟨blocks, sfin, hrun, hact, ?_, ?_, hlen⟩
  · rw [hjoin]
    rfl
  · rw [hjoin]
    exact (visits_nodup _ hinv).filter _

theorem sweep_progressive_spec_witness :
    4 < 6 ∧
    (∃ blocks sfin,
      runSweepF (sweepMeasure (initSweep {1} {2} 6 4) + 1)
          (sweepMeasure (initSweep {1} {2} 6 4) + 1) (initSweep {1} {2} 6 4) =
        some (blocks, sfin) ∧
      sfin.active = false ∧
      blocks.join = (List.range' 4 (6 - 4) ++ List.range 4).filter
        (fun i => decide (i ∉ ({1} : Finset Nat) ∧ i ∉ ({2} : Finset Nat))) ∧
      blocks.join.Nodup ∧
      (∀ b ∈ blocks, b.length ≤ 5)) :=
  ⟨by decide, sweep_progressive_spec {1} {2} 6 4 (by decide)⟩

end RawViewer
